import Mathlib

/-!
Verification development for `src/checkm/markerGeneFinder.py` (CheckM).

The file shallowly embeds the scheduling and aggregation layer of
`MarkerGeneFinder`: the per-job pipeline of `__processBin` (lines 80-120),
the queue seeding and worker-pool protocol of `find` (lines 41-78), and the
progress reporter `__reportProgress` (lines 122-143).

External collaborators (Prodigal, HMMER, `MarkerSetParser`,
`HmmModelParser`, `binIdFromFilename` from `common.py`) are not part of the
source under verification; they are modelled as opaque total functions
collected in an `Env` record, following the specification text that calls
them interface-only collaborators.  In particular `binIdOf` models
`binIdFromFilename`, which the spec describes only as a deterministic
function of the file path.

Machine arithmetic: Python integers are unbounded, so they are modelled as
`Nat`.  The expression `int(self.totalThreads / len(binFiles))` performs
float true division followed by truncation; for positive operands below
2^53 this coincides with floor division, which is how it is modelled here
(`Nat` division).  Division by zero raises `ZeroDivisionError` in Python;
this is modelled with `Except` in `find`.
-/

namespace CheckM

/-- Status of one worker process of the pool started in `find` (line 59). -/
inductive WStatus
  | running
  | terminated
  | crashed
deriving DecidableEq, Repr

/-- Errors that can abort the per-job pipeline in the model.  The only
failure the claims exercise is `os.remove(hmmModelFile)` failing
(line 118); the source has no handler for it. -/
inductive PErr
  | removeFailed
deriving DecidableEq, Repr

/-- Observable effects of one pass of the `__processBin` pipeline
(lines 90-120), in program order. -/
inductive Event
  | makeSurePathExists (dir : String)
  | prodigalRun (binFile : String) (bNucORFs : Bool)
  | createHmmModelFile (binId markerFile : String)
  | parseModels (path : String)
  | mapInsert (binId : String) (models : Nat)
  | hmmerSearch (hmmFile aaFile tableOut hmmerOut flags : String) (keep : Bool)
  | removeFile (path : String)
  | putCompletion (binId : String)
deriving DecidableEq, Repr

/-- External collaborators of the pipeline, modelled as opaque total
functions.  `binIdOf` models `binIdFromFilename`; `orfsCalled` models
`ProdigalRunner(binDir).areORFsCalled()`; `createHmmModelFile` models
`MarkerSetParser.createHmmModelFile(binId, markerFile)`; `models` models
`HmmModelParser(hmmModelFile).models()` (the structured metadata is
abstracted to a `Nat` tag, the claims only inspect keys); `aaGeneFile`
models `ProdigalRunner(binDir).aaGeneFile`; `removeOk` tells whether
`os.remove` succeeds on a path. -/
structure Env where
  binIdOf : String → String
  orfsCalled : String → Bool
  createHmmModelFile : String → String → String
  models : String → Nat
  aaGeneFile : String → String
  removeOk : String → Bool

/-- The arguments of `find` that configure each worker, plus the
`threadsPerSearch` budget computed once at line 45. -/
structure Cfg where
  outDir : String
  tableOut : String
  hmmerOut : String
  markerFile : String
  bKeepAlignment : Bool
  bNucORFs : Bool
  threadsPerSearch : Nat

/-- The HMMER parameter string built at lines 111-115:
`keepAlignStr` is empty unless `bKeepAlignment` is false, in which case it
is `--noali`; the string is the concatenation
`--cpu <n> --notextw -E 0.1 --domE 0.1 <keepAlignStr>`. -/
def hmmerFlagsStr (threadsPerSearch : Nat) (bKeepAlignment : Bool) : String :=
  let keepAlignStr := if bKeepAlignment then "" else "--noali"
  "--cpu " ++ Nat.repr threadsPerSearch ++ " --notextw -E 0.1 --domE 0.1 " ++ keepAlignStr

/-- Result of one pass of the `__processBin` pipeline body on one job:
the ordered effect trace, the writes into the shared dict, the ids pushed
onto the completion queue, and whether an uncaught exception escaped. -/
structure ProcResult where
  events : List Event
  inserts : List (String × Nat)
  completions : List String
  err : Option PErr
deriving DecidableEq, Repr

/-- One iteration of the `__processBin` worker loop body on job `binFile`
(lines 90-120): ensure the bin directory exists, run Prodigal unless its
output is already present, extract and parse the HMM model subset, record
it in the shared dict, run the HMMER search, delete the model subset file,
and push the bin id onto the completion queue.  `os.remove` failing
(modelled by `removeOk = false`) is uncaught in the source, so the
completion push at line 120 is not reached and the error escapes. -/
def processOneBin (env : Env) (cfg : Cfg) (binFile : String) : ProcResult :=
  let binId := env.binIdOf binFile
  let binDir := cfg.outDir ++ "/bins/" ++ binId
  let ev0 := [Event.makeSurePathExists binDir]
  let ev1 := if env.orfsCalled binDir then [] else [Event.prodigalRun binFile cfg.bNucORFs]
  let hmmModelFile := env.createHmmModelFile binId cfg.markerFile
  let ev2 := [Event.createHmmModelFile binId cfg.markerFile]
  let models := env.models hmmModelFile
  let ev3 := [Event.parseModels hmmModelFile, Event.mapInsert binId models]
  let tableOutPath := binDir ++ "/" ++ cfg.tableOut
  let hmmerOutPath := binDir ++ "/" ++ cfg.hmmerOut
  let flags := hmmerFlagsStr cfg.threadsPerSearch cfg.bKeepAlignment
  let ev4 := [Event.hmmerSearch hmmModelFile (env.aaGeneFile binDir) tableOutPath
                hmmerOutPath flags cfg.bKeepAlignment]
  if env.removeOk hmmModelFile then
    { events := ev0 ++ ev1 ++ ev2 ++ ev3 ++ ev4
        ++ [Event.removeFile hmmModelFile, Event.putCompletion binId]
      inserts := [(binId, models)]
      completions := [binId]
      err := none }
  else
    { events := ev0 ++ ev1 ++ ev2 ++ ev3 ++ ev4
      inserts := [(binId, models)]
      completions := []
      err := some PErr.removeFailed }

/-- Keys of the managed dictionary, in insertion order. -/
def dictKeys (d : List (String × Nat)) : List String := d.map Prod.fst

/-- Assignment `binIdToModels[binId] = models` on the managed dictionary
(line 104): overwrite an existing key, otherwise append. -/
def dictInsert (d : List (String × Nat)) (k : String) (v : Nat) : List (String × Nat) :=
  if k ∈ dictKeys d then d.map (fun p => if p.1 = k then (k, v) else p) else d ++ [(k, v)]

/-- Global state of the worker-pool protocol: the work dispatch queue
(`workerQueue`, front first), the status of each worker process, the
managed dict `binIdToModels`, the completion queue contents
(`writerQueue`), the jobs dequeued and processed so far, and the
concatenated effect trace. -/
structure RState where
  queue : List (Option String)
  workers : List WStatus
  dict : List (String × Nat)
  completions : List String
  processed : List String
  trace : List Event
deriving Repr

/-- Effect of worker `i` dequeuing job `f` and running the pipeline body on
it.  The writes of the pipeline are applied to the shared state; if the
pipeline raised, the worker process dies with the uncaught exception. -/
def applyJob (env : Env) (cfg : Cfg) (s : RState) (i : Nat) (f : String)
    (rest : List (Option String)) : RState :=
  let r := processOneBin env cfg f
  { queue := rest
    workers := if r.err = none then s.workers else s.workers.set i WStatus.crashed
    dict := r.inserts.foldl (fun d p => dictInsert d p.1 p.2) s.dict
    completions := s.completions ++ r.completions
    processed := s.processed ++ [f]
    trace := s.trace ++ r.events }

/-- One scheduler step: worker `i`, if it is running and the queue is
nonempty, dequeues the front item (`queueIn.get` at line 86).  A `None`
item takes the sentinel branch of line 87 and the worker loop breaks;
any other item is processed as one pipeline pass.  Scheduling a
non-running worker, or any worker on an empty queue, changes nothing
(a blocked `get` makes no progress). -/
def step (env : Env) (cfg : Cfg) (s : RState) (i : Nat) : RState :=
  if s.workers[i]? = some WStatus.running then
    match s.queue with
    | [] => s
    | none :: rest => { s with queue := rest, workers := s.workers.set i WStatus.terminated }
    | some f :: rest => applyJob env cfg s i f rest
  else s

/-- The queue seeding of lines 52-56: one `put` per bin file in input
order, then one `put(None)` per loop iteration of
`for _ in range(self.totalThreads)`. -/
def seedQueue (binFiles : List String) (totalThreads : Nat) : List (Option String) :=
  let q := binFiles.foldl (fun q binFile => q ++ [some binFile]) []
  (List.range totalThreads).foldl (fun q _ => q ++ [(none : Option String)]) q

/-- Initial protocol state: the seeded queue and the worker processes
started at line 59, one per element of the `range(self.totalThreads)`
comprehension. -/
def initState (binFiles : List String) (totalThreads : Nat) : RState :=
  { queue := seedQueue binFiles totalThreads
    workers := (List.range totalThreads).map (fun _ => WStatus.running)
    dict := []
    completions := []
    processed := []
    trace := [] }

/-- Run the protocol from `s` under a schedule: the list of worker indices
chosen by the OS scheduler, one choice per step. -/
def runFrom (env : Env) (cfg : Cfg) (s : RState) (schedule : List Nat) : RState :=
  schedule.foldl (step env cfg) s

/-- Run the worker pool from the freshly seeded state. -/
def run (env : Env) (cfg : Cfg) (binFiles : List String) (totalThreads : Nat)
    (schedule : List Nat) : RState :=
  runFrom env cfg (initState binFiles totalThreads) schedule

/-- Number of still-running worker processes. -/
def runningCount (s : RState) : Nat := s.workers.count WStatus.running

/-- The per-search thread budget of line 45:
`max(1, int(self.totalThreads / len(binFiles)))`. -/
def threadsPerSearch (totalThreads jobCount : Nat) : Nat :=
  max 1 (totalThreads / jobCount)

/-- Fatal errors of `find`.  `zeroDivision` models the Python
`ZeroDivisionError` raised by the budget expression at line 45 when
`len(binFiles) == 0`; the source performs no explicit validation. -/
inductive FindErr
  | zeroDivision
deriving DecidableEq, Repr

/-- The orchestrator `find` (lines 41-78): compute the thread budget
(which raises on an empty job list), seed the queue, run the worker pool,
and materialize the managed dict into a plain dictionary by the copy loop
of lines 73-76.  The returned pair is the final protocol state together
with the materialized dictionary. -/
def find (env : Env) (totalThreads : Nat) (binFiles : List String)
    (outDir tableOut hmmerOut markerFile : String) (bKeepAlignment bNucORFs : Bool)
    (schedule : List Nat) : Except FindErr (RState × List (String × Nat)) :=
  if binFiles.length = 0 then Except.error FindErr.zeroDivision
  else
    let cfg : Cfg :=
      { outDir := outDir
        tableOut := tableOut
        hmmerOut := hmmerOut
        markerFile := markerFile
        bKeepAlignment := bKeepAlignment
        bNucORFs := bNucORFs
        threadsPerSearch := threadsPerSearch totalThreads binFiles.length }
    let s := run env cfg binFiles totalThreads schedule
    let d := s.dict.foldl (fun d p => dictInsert d p.1 p.2) []
    Except.ok (s, d)

/-- The single-worker dequeue loop skeleton of lines 85-88: keep taking
items; break on the first item equal to `None`; collect every other item
as a processed job.  Returns the jobs this worker processed and the items
it left on the queue. -/
def workerConsume : List (Option String) → List String × List (Option String)
  | [] => ([], [])
  | none :: rest => ([], rest)
  | some binFile :: rest =>
      let r := workerConsume rest
      (binFile :: r.1, r.2)

/-- Two-digit rendering of the fractional hundredths. -/
def pad2 (n : Nat) : String := if n < 10 then "0" ++ Nat.repr n else Nat.repr n

/-- Round `a / b` to the nearest integer, ties to even, on naturals. -/
def roundHalfEven (a b : Nat) : Nat :=
  let q := a / b
  let r := a % b
  if 2 * r < b then q else if b < 2 * r then q + 1 else q + q % 2

/-- The `%.2f` rendering of `float(done)*100/total` used in the status
line (lines 127 and 138), modelled as the exact rational rounded to
hundredths (ties to even).  For the small counts the claims evaluate,
this coincides with the double rounding done by Python. -/
def fmtPct (done total : Nat) : String :=
  let h := roundHalfEven (10000 * done) total
  Nat.repr (h / 100) ++ "." ++ pad2 (h % 100)

/-- The status line `    Finished processing %d of %d (%.2f%%) bins.` of
lines 127 and 138, with the counts and the rendered percentage filled in. -/
def statusStr (done total : Nat) : String :=
  "    Finished processing " ++ Nat.repr done ++ " of " ++ Nat.repr total ++
    " (" ++ fmtPct done total ++ "%) bins."

/-- `logging.INFO`. -/
def INFO : Nat := 20

/-- Result of the reporter: everything written to stderr in order, the
final value of `numProcessedBins`, the queue items left after the loop,
and whether the loop exited through the sentinel branch of line 133. -/
structure RepResult where
  outputs : List String
  numProcessedBins : Nat
  leftover : List (Option String)
  sawSentinel : Bool
deriving DecidableEq, Repr

/-- The consumer loop of `__reportProgress` (lines 131-143): block on the
queue; break on `None` and write the final newline; on a real completion,
and only when the effective log level is at most `INFO`, increment the
counter and write the status line followed by a carriage return. -/
def repLoop (level numBins : Nat) (numProcessedBins : Nat) :
    List (Option String) → RepResult
  | [] => { outputs := [], numProcessedBins := numProcessedBins, leftover := [], sawSentinel := false }
  | none :: rest =>
      { outputs := if level ≤ INFO then ["\n"] else []
        numProcessedBins := numProcessedBins
        leftover := rest
        sawSentinel := true }
  | some _ :: rest =>
      if level ≤ INFO then
        let n := numProcessedBins + 1
        let r := repLoop level numBins n rest
        { r with outputs := (statusStr n numBins ++ "\r") :: r.outputs }
      else
        repLoop level numBins numProcessedBins rest

/-- `__reportProgress` (lines 122-143): the initial zero-progress status
line written before the loop (lines 126-129), then the consumer loop. -/
def reportProgress (level numBins : Nat) (items : List (Option String)) : RepResult :=
  let initOut := if level ≤ INFO then [statusStr 0 numBins ++ "\r"] else []
  let r := repLoop level numBins 0 items
  { r with outputs := initOut ++ r.outputs }

/-- Modelled from the spec: the profile-searcher parameter string as the
external-interface section words it, the tokens
`--cpu <N> --notextw -E 0.1 --domE 0.1` with `--noali` appended exactly
when alignments are suppressed, joined by single spaces. -/
def specProfileSearchParams (n : Nat) (keep : Bool) : String :=
  String.intercalate " "
    (["--cpu", Nat.repr n, "--notextw", "-E", "0.1", "--domE", "0.1"]
      ++ if keep then [] else ["--noali"])

/-- An environment that says the pipeline never hits an external failure:
in particular every `os.remove` succeeds. -/
def NormalEnv (env : Env) : Prop := ∀ p, env.removeOk p = true

/-- A concrete environment for witnesses. -/
def testEnv : Env :=
  { binIdOf := fun s => s
    orfsCalled := fun _ => false
    createHmmModelFile := fun b _ => b ++ ".hmm"
    models := fun _ => 0
    aaGeneFile := fun d => d ++ "/genes.faa"
    removeOk := fun _ => true }

/-- A concrete environment whose `os.remove` always fails. -/
def failEnv : Env :=
  { testEnv with removeOk := fun _ => false }

/-- A concrete configuration for witnesses, with the budget `find`
computes for two threads over two bins. -/
def wCfg : Cfg :=
  { outDir := "out"
    tableOut := "tbl"
    hmmerOut := "hm"
    markerFile := "mk"
    bKeepAlignment := false
    bNucORFs := false
    threadsPerSearch := threadsPerSearch 2 2 }

/-- Protocol invariant of a normal (no-failure) run.  The queue is always
a suffix of the seeded queue, written as the not-yet-dispatched jobs
followed by the remaining sentinels; `processed`, `completions` and the
dict keys record exactly the already dispatched prefix of the jobs; and
the number of running workers always equals the number of sentinels left
on the queue. -/
def Inv (env : Env) (binFiles : List String) (W : Nat) (s : RState) : Prop :=
  ∃ pre rem wn,
    binFiles = pre ++ rem ∧
    s.queue = rem.map some ++ List.replicate wn none ∧
    wn ≤ W ∧
    (rem ≠ [] → wn = W) ∧
    runningCount s = wn ∧
    s.workers.length = W ∧
    s.processed = pre ∧
    s.completions = pre.map env.binIdOf ∧
    (∀ k, k ∈ dictKeys s.dict ↔ k ∈ pre.map env.binIdOf)

/-- Sentinel availability: there are always at least as many sentinels
left on the dispatch queue as there are running workers, whatever the
environment does. -/
def SentinelInv (s : RState) : Prop :=
  runningCount s ≤ s.queue.count none

/-- Every HMMER search recorded in the trace used the flags built from
the one configured thread budget. -/
def TraceFlagsOK (cfg : Cfg) (s : RState) : Prop :=
  ∀ hf aa tp hp fl kp, Event.hmmerSearch hf aa tp hp fl kp ∈ s.trace →
    fl = hmmerFlagsStr cfg.threadsPerSearch cfg.bKeepAlignment

/-! ### Basic lemmas about the seeded queue and the initial state -/

theorem foldl_push_eq (l : List String) (q : List (Option String)) :
    l.foldl (fun q f => q ++ [some f]) q = q ++ l.map some := by
  induction l generalizing q with
  | nil => simp
  | cons a l ih => simp [ih]

theorem foldl_pushNone_eq (l : List Nat) (q : List (Option String)) :
    l.foldl (fun q _ => q ++ [(none : Option String)]) q
      = q ++ List.replicate l.length none := by
  induction l generalizing q with
  | nil => simp
  | cons a l ih => simp [ih, List.replicate_succ]

theorem seedQueue_eq (binFiles : List String) (t : Nat) :
    seedQueue binFiles t = binFiles.map some ++ List.replicate t none := by
  simp [seedQueue, foldl_push_eq, foldl_pushNone_eq]

theorem initState_workers (binFiles : List String) (t : Nat) :
    (initState binFiles t).workers = List.replicate t WStatus.running := by
  rw [List.eq_replicate_iff]
  constructor
  · simp [initState]
  · intro b hb
    simp [initState] at hb
    exact hb.2

theorem runningCount_init (binFiles : List String) (t : Nat) :
    runningCount (initState binFiles t) = t := by
  simp [runningCount, initState_workers, List.count_replicate]

theorem initState_queue (binFiles : List String) (t : Nat) :
    (initState binFiles t).queue = binFiles.map some ++ List.replicate t none := by
  simp [initState, seedQueue_eq]

/-! ### Lemmas about one pipeline pass -/

theorem processOneBin_err (env : Env) (cfg : Cfg) (f : String)
    (h : env.removeOk (env.createHmmModelFile (env.binIdOf f) cfg.markerFile) = true) :
    (processOneBin env cfg f).err = none := by
  simp [processOneBin, h]

theorem processOneBin_err_none (env : Env) (cfg : Cfg) (f : String) (h : NormalEnv env) :
    (processOneBin env cfg f).err = none :=
  processOneBin_err env cfg f (h _)

theorem processOneBin_inserts (env : Env) (cfg : Cfg) (f : String) :
    (processOneBin env cfg f).inserts
      = [(env.binIdOf f, env.models (env.createHmmModelFile (env.binIdOf f) cfg.markerFile))] := by
  by_cases hr : env.removeOk (env.createHmmModelFile (env.binIdOf f) cfg.markerFile) <;>
    simp [processOneBin, hr]

theorem processOneBin_completions (env : Env) (cfg : Cfg) (f : String)
    (h : env.removeOk (env.createHmmModelFile (env.binIdOf f) cfg.markerFile) = true) :
    (processOneBin env cfg f).completions = [env.binIdOf f] := by
  simp [processOneBin, h]

/-! ### Lemmas about the managed dictionary -/

theorem dictKeys_insert (d : List (String × Nat)) (k : String) (v : Nat) (a : String) :
    a ∈ dictKeys (dictInsert d k v) ↔ a ∈ dictKeys d ∨ a = k := by
  unfold dictInsert dictKeys
  by_cases hk : k ∈ dictKeys d
  · unfold dictKeys at hk
    rw [if_pos hk, List.map_map]
    have hfst : (Prod.fst ∘ fun p : String × Nat => if p.1 = k then (k, v) else p) = Prod.fst := by
      funext p
      by_cases h : p.1 = k <;> simp [h]
    rw [hfst]
    constructor
    · exact fun h => Or.inl h
    · rintro (h | rfl)
      · exact h
      · exact hk
  · unfold dictKeys at hk
    rw [if_neg hk, List.map_append]
    simp

theorem dictKeys_copy (d : List (String × Nat)) (k : String) :
    ∀ acc, k ∈ dictKeys (d.foldl (fun a p => dictInsert a p.1 p.2) acc)
      ↔ (k ∈ dictKeys acc ∨ k ∈ dictKeys d) := by
  induction d with
  | nil => intro acc; simp [dictKeys]
  | cons p d ih =>
    intro acc
    simp only [List.foldl_cons]
    rw [ih, dictKeys_insert]
    simp [dictKeys]
    tauto

/-! ### Counting running workers -/

theorem count_set_of_ne (l : List WStatus) (i : Nat) (v : WStatus)
    (hv : v ≠ WStatus.running) (h : l[i]? = some WStatus.running) :
    (l.set i v).count WStatus.running + 1 = l.count WStatus.running := by
  induction l generalizing i with
  | nil => simp at h
  | cons a l ih =>
    cases i with
    | zero =>
      simp only [List.getElem?_cons_zero] at h
      injection h with h
      subst h
      simp [List.set, List.count_cons, hv]
    | succ n =>
      simp only [List.getElem?_cons_succ] at h
      have := ih n h
      simp [List.set, List.count_cons]
      omega

/-! ### Preservation of the protocol invariant -/

theorem Inv_init (env : Env) (binFiles : List String) (W : Nat) :
    Inv env binFiles W (initState binFiles W) := by
  refine ⟨[], binFiles, W, by simp, ?_, le_refl W, fun _ => rfl, ?_, ?_, rfl, rfl, ?_⟩
  · exact initState_queue binFiles W
  · exact runningCount_init binFiles W
  · simp [initState]
  · intro k
    simp [initState, dictKeys]

theorem Inv_step (env : Env) (cfg : Cfg) (binFiles : List String) (W : Nat)
    (hEnv : NormalEnv env) (s : RState) (i : Nat) (h : Inv env binFiles W s) :
    Inv env binFiles W (step env cfg s i) := by
  obtain ⟨pre, rem, wn, hbf, hq, hwn, hrem, hrc, hwl, hp, hc, hd⟩ := h
  by_cases hg : s.workers[i]? = some WStatus.running
  · cases rem with
    | cons f rem2 =>
      have hq2 : s.queue = some f :: (rem2.map some ++ List.replicate wn none) := by
        simpa using hq
      have hstep : step env cfg s i
          = applyJob env cfg s i f (rem2.map some ++ List.replicate wn none) := by
        simp [step, hg, hq2]
      rw [hstep]
      have herr : (processOneBin env cfg f).err = none := processOneBin_err_none env cfg f hEnv
      refine ⟨pre ++ [f], rem2, wn, ?_, ?_, hwn, ?_, ?_, ?_, ?_, ?_, ?_⟩
      · rw [hbf]; simp
      · simp [applyJob]
      · intro _; exact hrem (by simp)
      · simpa [applyJob, runningCount, herr] using hrc
      · simpa [applyJob, herr] using hwl
      · simp [applyJob, hp]
      · simp [applyJob, processOneBin_completions env cfg f (hEnv _), hc]
      · intro k
        simp only [applyJob, processOneBin_inserts, List.foldl_cons, List.foldl_nil]
        rw [dictKeys_insert, hd k]
        simp
    | nil =>
      have hq0 : s.queue = List.replicate wn none := by simpa using hq
      cases wn with
      | zero =>
        have hstep : step env cfg s i = s := by
          simp [step, hg, hq0]
        rw [hstep]
        exact ⟨pre, [], 0, hbf, hq, hwn, hrem, hrc, hwl, hp, hc, hd⟩
      | succ wn2 =>
        have hq1 : s.queue = none :: List.replicate wn2 none := by
          simpa [List.replicate_succ] using hq0
        have hstep : step env cfg s i = { s with queue := List.replicate wn2 none, workers := s.workers.set i WStatus.terminated } := by
          simp [step, hg, hq1]
        rw [hstep]
        refine ⟨pre, [], wn2, ?_, ?_, ?_, ?_, ?_, ?_, hp, hc, hd⟩
        · simpa using hbf
        · simp
        · omega
        · intro hcontra; exact absurd rfl hcontra
        · have hcs := count_set_of_ne s.workers i WStatus.terminated (by decide) hg
          simp only [runningCount] at hrc ⊢
          omega
        · simpa [List.length_set] using hwl
  · have hstep : step env cfg s i = s := by simp [step, hg]
    rw [hstep]
    exact ⟨pre, rem, wn, hbf, hq, hwn, hrem, hrc, hwl, hp, hc, hd⟩

theorem Inv_runFrom (env : Env) (cfg : Cfg) (binFiles : List String) (W : Nat)
    (hEnv : NormalEnv env) (schedule : List Nat) :
    ∀ s, Inv env binFiles W s → Inv env binFiles W (runFrom env cfg s schedule) := by
  induction schedule with
  | nil => intro s hs; simpa [runFrom] using hs
  | cons i sch ih =>
    intro s hs
    have h1 := Inv_step env cfg binFiles W hEnv s i hs
    simpa [runFrom] using ih (step env cfg s i) h1

theorem Inv_run (env : Env) (cfg : Cfg) (binFiles : List String) (W : Nat)
    (hEnv : NormalEnv env) (schedule : List Nat) :
    Inv env binFiles W (run env cfg binFiles W schedule) :=
  Inv_runFrom env cfg binFiles W hEnv schedule (initState binFiles W)
    (Inv_init env binFiles W)

theorem Inv_final (env : Env) (binFiles : List String) (W : Nat) (s : RState)
    (hW : 1 ≤ W) (h : Inv env binFiles W s) (hT : runningCount s = 0) :
    s.processed = binFiles ∧ s.completions = binFiles.map env.binIdOf ∧
      (∀ k, k ∈ dictKeys s.dict ↔ k ∈ binFiles.map env.binIdOf) ∧ s.queue = [] := by
  obtain ⟨pre, rem, wn, hbf, hq, hwn, hrem, hrc, hwl, hp, hc, hd⟩ := h
  have hwn0 : wn = 0 := by omega
  have hrem0 : rem = [] := by
    by_contra hne
    have := hrem hne
    omega
  have hpre : pre = binFiles := by
    rw [hbf, hrem0]
    simp
  refine ⟨?_, ?_, ?_, ?_⟩
  · rw [hp, hpre]
  · rw [hc, hpre]
  · intro k; rw [hd k, hpre]
  · rw [hq, hrem0, hwn0]; simp

/-! ### Sentinel availability and existence of a terminating schedule -/

theorem sentinel_init (binFiles : List String) (t : Nat) :
    SentinelInv (initState binFiles t) := by
  unfold SentinelInv
  rw [runningCount_init, initState_queue, List.count_append, List.count_replicate]
  have h0 : (binFiles.map some).count (none : Option String) = 0 := by
    rw [List.count_eq_zero]
    simp
  rw [h0]
  simp

theorem sentinel_step (env : Env) (cfg : Cfg) (s : RState) (i : Nat)
    (h : SentinelInv s) : SentinelInv (step env cfg s i) := by
  by_cases hg : s.workers[i]? = some WStatus.running
  · cases hq : s.queue with
    | nil =>
      have hstep : step env cfg s i = s := by simp [step, hg, hq]
      rwa [hstep]
    | cons item rest =>
      cases item with
      | none =>
        have hstep : step env cfg s i = { s with queue := rest, workers := s.workers.set i WStatus.terminated } := by
          simp [step, hg, hq]
        rw [hstep]
        unfold SentinelInv runningCount at h ⊢
        rw [hq] at h
        simp only [List.count_cons] at h
        have hcs := count_set_of_ne s.workers i WStatus.terminated (by decide) hg
        simp at h ⊢
        omega
      | some f =>
        have hstep : step env cfg s i = applyJob env cfg s i f rest := by
          simp [step, hg, hq]
        rw [hstep]
        unfold SentinelInv runningCount at h ⊢
        rw [hq] at h
        simp only [List.count_cons] at h
        by_cases he : (processOneBin env cfg f).err = none
        · simp [applyJob, he] at h ⊢
          omega
        · simp [applyJob, he] at h ⊢
          have hcs := count_set_of_ne s.workers i WStatus.crashed (by decide) hg
          omega
  · have hstep : step env cfg s i = s := by simp [step, hg]
    rwa [hstep]

theorem sentinel_runFrom (env : Env) (cfg : Cfg) (schedule : List Nat) :
    ∀ s, SentinelInv s → SentinelInv (runFrom env cfg s schedule) := by
  induction schedule with
  | nil => intro s hs; simpa [runFrom] using hs
  | cons i sch ih =>
    intro s hs
    simpa [runFrom] using ih (step env cfg s i) (sentinel_step env cfg s i hs)

theorem sentinel_run (env : Env) (cfg : Cfg) (binFiles : List String) (t : Nat)
    (schedule : List Nat) : SentinelInv (run env cfg binFiles t schedule) :=
  sentinel_runFrom env cfg schedule (initState binFiles t) (sentinel_init binFiles t)

theorem exists_terminating_aux (env : Env) (cfg : Cfg) :
    ∀ n (s : RState), s.queue.length ≤ n → SentinelInv s →
      ∃ schedule, runningCount (runFrom env cfg s schedule) = 0 := by
  intro n
  induction n with
  | zero =>
    intro s hlen hinv
    have hq : s.queue = [] := List.length_eq_zero.mp (Nat.le_zero.mp hlen)
    refine ⟨[], ?_⟩
    have h0 : s.queue.count (none : Option String) = 0 := by rw [hq]; rfl
    unfold SentinelInv at hinv
    rw [h0] at hinv
    simpa [runFrom] using Nat.le_zero.mp hinv
  | succ n ih =>
    intro s hlen hinv
    by_cases h0 : runningCount s = 0
    · exact ⟨[], by simpa [runFrom] using h0⟩
    · have hpos : 0 < runningCount s := Nat.pos_of_ne_zero h0
      have hmem : WStatus.running ∈ s.workers := List.count_pos_iff.mp hpos
      obtain ⟨j, hj⟩ := List.get?_of_mem hmem
      have hi : s.workers[j]? = some WStatus.running := by
        rwa [List.get?_eq_getElem?] at hj
      have hqpos : 0 < s.queue.count (none : Option String) := lt_of_lt_of_le hpos hinv
      have hqne : s.queue ≠ [] := by
        intro hq
        rw [hq] at hqpos
        simp at hqpos
      obtain ⟨item, rest, hq⟩ := List.exists_cons_of_ne_nil hqne
      have hlen2 : (step env cfg s j).queue.length ≤ n := by
        rw [hq] at hlen
        simp only [List.length_cons] at hlen
        cases item with
        | none => simp [step, hi, hq]; omega
        | some f => simp [step, hi, hq, applyJob]; omega
      have hinv2 : SentinelInv (step env cfg s j) := sentinel_step env cfg s j hinv
      obtain ⟨sch, hsch⟩ := ih (step env cfg s j) hlen2 hinv2
      exact ⟨j :: sch, by simpa [runFrom] using hsch⟩

/-! ### Thread-budget flags along the trace -/

theorem processOneBin_search_flags (env : Env) (cfg : Cfg) (f : String)
    (hf aa tp hp fl : String) (kp : Bool)
    (h : Event.hmmerSearch hf aa tp hp fl kp ∈ (processOneBin env cfg f).events) :
    fl = hmmerFlagsStr cfg.threadsPerSearch cfg.bKeepAlignment := by
  by_cases ho : env.orfsCalled (cfg.outDir ++ "/bins/" ++ env.binIdOf f) <;>
    by_cases hr : env.removeOk (env.createHmmModelFile (env.binIdOf f) cfg.markerFile) <;>
      simp [processOneBin, ho, hr] at h <;>
        tauto

theorem processOneBin_search_mem (env : Env) (cfg : Cfg) (binFile : String) :
    Event.hmmerSearch (env.createHmmModelFile (env.binIdOf binFile) cfg.markerFile)
        (env.aaGeneFile (cfg.outDir ++ "/bins/" ++ env.binIdOf binFile))
        (cfg.outDir ++ "/bins/" ++ env.binIdOf binFile ++ "/" ++ cfg.tableOut)
        (cfg.outDir ++ "/bins/" ++ env.binIdOf binFile ++ "/" ++ cfg.hmmerOut)
        (hmmerFlagsStr cfg.threadsPerSearch cfg.bKeepAlignment) cfg.bKeepAlignment
      ∈ (processOneBin env cfg binFile).events := by
  by_cases ho : env.orfsCalled (cfg.outDir ++ "/bins/" ++ env.binIdOf binFile) <;>
    by_cases hr : env.removeOk (env.createHmmModelFile (env.binIdOf binFile) cfg.markerFile) <;>
      simp [processOneBin, ho, hr]

theorem trace_flags_step (env : Env) (cfg : Cfg) (s : RState) (i : Nat)
    (h : TraceFlagsOK cfg s) : TraceFlagsOK cfg (step env cfg s i) := by
  unfold TraceFlagsOK at h ⊢
  intro hf aa tp hp fl kp hmem
  by_cases hg : s.workers[i]? = some WStatus.running
  · cases hq : s.queue with
    | nil =>
      have hstep : step env cfg s i = s := by simp [step, hg, hq]
      rw [hstep] at hmem
      exact h hf aa tp hp fl kp hmem
    | cons item rest =>
      cases item with
      | none =>
        have hstep : step env cfg s i = { s with queue := rest, workers := s.workers.set i WStatus.terminated } := by
          simp [step, hg, hq]
        rw [hstep] at hmem
        exact h hf aa tp hp fl kp hmem
      | some f =>
        have hstep : step env cfg s i = applyJob env cfg s i f rest := by
          simp [step, hg, hq]
        rw [hstep] at hmem
        simp only [applyJob, List.mem_append] at hmem
        cases hmem with
        | inl hold => exact h hf aa tp hp fl kp hold
        | inr hnew => exact processOneBin_search_flags env cfg f hf aa tp hp fl kp hnew
  · have hstep : step env cfg s i = s := by simp [step, hg]
    rw [hstep] at hmem
    exact h hf aa tp hp fl kp hmem

theorem trace_flags_runFrom (env : Env) (cfg : Cfg) (schedule : List Nat) :
    ∀ s, TraceFlagsOK cfg s → TraceFlagsOK cfg (runFrom env cfg s schedule) := by
  induction schedule with
  | nil => intro s hs; simpa [runFrom] using hs
  | cons i sch ih =>
    intro s hs
    simpa [runFrom] using ih (step env cfg s i) (trace_flags_step env cfg s i hs)

theorem trace_flags_run (env : Env) (cfg : Cfg) (binFiles : List String) (t : Nat)
    (schedule : List Nat) : TraceFlagsOK cfg (run env cfg binFiles t schedule) := by
  apply trace_flags_runFrom
  intro hf aa tp hp fl kp hmem
  simp [initState] at hmem

/-! ### Reporter lemmas -/

theorem repLoop_noNone (level numBins : Nat) (xs : List String) :
    ∀ c, (repLoop level numBins c (xs.map some ++ [none])).sawSentinel = true
      ∧ (repLoop level numBins c (xs.map some ++ [none])).leftover = []
      ∧ (repLoop level numBins c (xs.map some ++ [none])).numProcessedBins
          = (if level ≤ INFO then c + xs.length else c)
      ∧ (repLoop level numBins c (xs.map some ++ [none])).outputs
          = (if level ≤ INFO then
              ((List.range xs.length).map (fun k => statusStr (c + k + 1) numBins ++ "\r"))
                ++ ["\n"]
            else []) := by
  induction xs with
  | nil =>
    intro c
    by_cases hl : level ≤ INFO <;> simp [repLoop, hl]
  | cons x xs ih =>
    intro c
    by_cases hl : level ≤ INFO
    · obtain ⟨ha, hb, h3, h4⟩ := ih (c + 1)
      rw [if_pos hl] at h3 h4
      refine ⟨?_, ?_, ?_, ?_⟩
      · simpa [repLoop, hl, List.append_eq] using ha
      · simpa [repLoop, hl, List.append_eq] using hb
      · rw [if_pos hl]
        simp only [List.map_cons, List.cons_append, repLoop, if_pos hl, List.append_eq]
        rw [h3]
        simp only [List.length_cons]
        omega
      · rw [if_pos hl]
        simp only [List.map_cons, List.cons_append, repLoop, if_pos hl, List.append_eq]
        rw [h4]
        rw [List.length_cons, List.range_succ_eq_map, List.map_cons, List.map_map]
        have harith : ((fun k => statusStr (c + k + 1) numBins ++ "\r") ∘ Nat.succ)
            = (fun k => statusStr (c + 1 + k + 1) numBins ++ "\r") := by
          funext k
          have he : c + (k + 1) + 1 = c + 1 + k + 1 := by omega
          simp [Function.comp, he]
        rw [harith]
        simp
    · obtain ⟨ha, hb, h3, h4⟩ := ih c
      rw [if_neg hl] at h3 h4
      refine ⟨?_, ?_, ?_, ?_⟩
      · simpa [repLoop, hl, List.append_eq] using ha
      · simpa [repLoop, hl, List.append_eq] using hb
      · rw [if_neg hl]
        simpa [repLoop, hl, List.append_eq] using h3
      · rw [if_neg hl]
        simpa [repLoop, hl, List.append_eq] using h4

theorem fmtPct_total (N : Nat) (h : 1 ≤ N) : fmtPct N N = "100.00" := by
  have hN : 0 < N := h
  have h1 : (10000 : Nat) * N / N = 10000 := Nat.mul_div_cancel _ hN
  have h2 : (10000 : Nat) * N % N = 0 := Nat.mul_mod_left _ _
  simp only [fmtPct, roundHalfEven, h1, h2]
  rw [if_pos (by omega : 2 * 0 < N)]
  rfl

/-! ### The flags string against the spec wording -/

theorem hmmerFlagsStr_eq_spec (n : Nat) (keep : Bool) :
    hmmerFlagsStr n keep = specProfileSearchParams n keep ++ (if keep then " " else "") := by
  have h1 : "--cpu " = "--cpu" ++ " " := rfl
  have h2 : " --notextw -E 0.1 --domE 0.1 " =
      " " ++ "--notextw" ++ " " ++ "-E" ++ " " ++ "0.1" ++ " " ++ "--domE" ++ " " ++ "0.1" ++ " " := rfl
  cases keep with
  | false =>
    show "--cpu " ++ Nat.repr n ++ " --notextw -E 0.1 --domE 0.1 " ++ "--noali"
        = specProfileSearchParams n false ++ ""
    rw [String.append_empty]
    rw [show specProfileSearchParams n false
        = "--cpu" ++ " " ++ Nat.repr n ++ " " ++ "--notextw" ++ " " ++ "-E" ++ " " ++ "0.1"
            ++ " " ++ "--domE" ++ " " ++ "0.1" ++ " " ++ "--noali" from rfl]
    rw [h1, h2]
    simp [String.append_assoc]
  | true =>
    show "--cpu " ++ Nat.repr n ++ " --notextw -E 0.1 --domE 0.1 " ++ ""
        = specProfileSearchParams n true ++ " "
    rw [String.append_empty]
    rw [show specProfileSearchParams n true
        = "--cpu" ++ " " ++ Nat.repr n ++ " " ++ "--notextw" ++ " " ++ "-E" ++ " " ++ "0.1"
            ++ " " ++ "--domE" ++ " " ++ "0.1" from rfl]
    rw [h1, h2]
    simp [String.append_assoc]

/-! ### Claim theorems -/

/-- Claim C1: after a normal (no-failure) run of `find` over the jobs with
the worker pool, once every worker process has terminated, the key set of
the returned mapping equals exactly the set of job identifiers of the
input jobs (none missing, none extra), and the list of jobs actually
dispatched and processed is exactly the input list, each job once (no job
processed twice, none skipped). -/
theorem spec_C1 (env : Env) (totalThreads : Nat) (binFiles : List String)
    (outDir tableOut hmmerOut markerFile : String) (bKeepAlignment bNucORFs : Bool)
    (schedule : List Nat) (ht : 1 ≤ totalThreads) (hne : binFiles ≠ [])
    (hEnv : NormalEnv env) (s : RState) (d : List (String × Nat))
    (hfind : find env totalThreads binFiles outDir tableOut hmmerOut markerFile
        bKeepAlignment bNucORFs schedule = Except.ok (s, d))
    (hT : runningCount s = 0) :
    (∀ k, k ∈ dictKeys d ↔ k ∈ binFiles.map env.binIdOf) ∧ s.processed = binFiles := by
  have hlen : ¬ binFiles.length = 0 := by simpa [List.length_eq_zero] using hne
  simp only [find] at hfind
  rw [if_neg hlen] at hfind
  simp only [Except.ok.injEq, Prod.mk.injEq] at hfind
  obtain ⟨hs, hd2⟩ := hfind
  subst hs
  subst hd2
  have hInv := Inv_run env
    { outDir := outDir, tableOut := tableOut, hmmerOut := hmmerOut, markerFile := markerFile,
      bKeepAlignment := bKeepAlignment, bNucORFs := bNucORFs,
      threadsPerSearch := threadsPerSearch totalThreads binFiles.length }
    binFiles totalThreads hEnv schedule
  have hfin := Inv_final env binFiles totalThreads _ ht hInv hT
  obtain ⟨hproc, hcomp, hkeys, hqe⟩ := hfin
  refine ⟨?_, hproc⟩
  intro k
  rw [dictKeys_copy]
  constructor
  · rintro (hfalse | hgood)
    · simp [dictKeys] at hfalse
    · exact (hkeys k).mp hgood
  · intro hmem
    exact Or.inr ((hkeys k).mpr hmem)

/-- Claim C1 witness: a concrete two-job, two-worker run in which both
bin ids end up in the materialized dictionary and both jobs are processed
exactly once, in order. -/
theorem spec_C1_witness :
    ("b1" ∈ dictKeys ((run testEnv wCfg ["b1", "b2"] 2 [0, 1, 0, 1]).dict.foldl
        (fun a p => dictInsert a p.1 p.2) []))
      ∧ (run testEnv wCfg ["b1", "b2"] 2 [0, 1, 0, 1]).processed = ["b1", "b2"] := by
  have h := spec_C1 testEnv 2 ["b1", "b2"] "out" "tbl" "hm" "mk" false false [0, 1, 0, 1]
    (by decide) (by decide) (fun _ => rfl)
    (run testEnv wCfg ["b1", "b2"] 2 [0, 1, 0, 1])
    ((run testEnv wCfg ["b1", "b2"] 2 [0, 1, 0, 1]).dict.foldl
      (fun a p => dictInsert a p.1 p.2) [])
    (by rfl) (by rfl)
  exact ⟨(h.1 "b1").mpr (by decide), h.2⟩

/-- Claim C2: the per-job thread budget computed once at line 45 equals
`max(1, totalThreads / jobCount)` (floor division); the examples
`(8, 3) = 2`, `(2, 5) = 1` and `(10, 1) = 10` hold; and on any run of
`find`, every HMMER search recorded in the trace was invoked with the
flags built from that one budget, so the value never changes during the
run. -/
theorem spec_C2 (env : Env) (totalThreads : Nat) (binFiles : List String)
    (outDir tableOut hmmerOut markerFile : String) (bKeepAlignment bNucORFs : Bool)
    (schedule : List Nat) (h1 : 1 ≤ totalThreads) (h2 : binFiles ≠ []) :
    threadsPerSearch totalThreads binFiles.length
        = max 1 (totalThreads / binFiles.length)
      ∧ threadsPerSearch 8 3 = 2 ∧ threadsPerSearch 2 5 = 1 ∧ threadsPerSearch 10 1 = 10
      ∧ ∃ s d, find env totalThreads binFiles outDir tableOut hmmerOut markerFile
            bKeepAlignment bNucORFs schedule = Except.ok (s, d)
          ∧ ∀ hf aa tp hp fl kp, Event.hmmerSearch hf aa tp hp fl kp ∈ s.trace →
              fl = hmmerFlagsStr (threadsPerSearch totalThreads binFiles.length) bKeepAlignment := by
  have hlen : ¬ binFiles.length = 0 := by simpa [List.length_eq_zero] using h2
  refine ⟨rfl, by decide, by decide, by decide, ?_⟩
  simp only [find]
  rw [if_neg hlen]
  refine ⟨_, _, rfl, ?_⟩
  intro hf aa tp hp fl kp hmem
  exact trace_flags_run env
    { outDir := outDir, tableOut := tableOut, hmmerOut := hmmerOut, markerFile := markerFile,
      bKeepAlignment := bKeepAlignment, bNucORFs := bNucORFs,
      threadsPerSearch := threadsPerSearch totalThreads binFiles.length }
    binFiles totalThreads schedule hf aa tp hp fl kp hmem

/-- Claim C2 witness: the budget facts instantiated at a concrete run. -/
theorem spec_C2_witness :
    threadsPerSearch 8 3 = 2 ∧ threadsPerSearch 2 5 = 1 ∧ threadsPerSearch 10 1 = 10 := by
  have h := spec_C2 testEnv 8 ["a", "b", "c"] "o" "t" "h" "m" false false []
    (by decide) (by decide)
  exact ⟨h.2.1, h.2.2.1, h.2.2.2.1⟩

/-- Claim C3: the dispatch queue is seeded with exactly one entry per job,
in input order, immediately followed by exactly `totalThreads` sentinels,
and exactly `totalThreads` worker processes are started; in any reachable
state a still-running worker always has a sentinel ahead of it on the
queue, and there is a schedule under which every worker terminates. -/
theorem spec_C3 (env : Env) (cfg : Cfg) (binFiles : List String) (totalThreads : Nat)
    (ht : 1 ≤ totalThreads) :
    (initState binFiles totalThreads).queue
        = binFiles.map some ++ List.replicate totalThreads none
      ∧ (initState binFiles totalThreads).workers.length = totalThreads
      ∧ (∀ (schedule : List Nat) (i : Nat),
          (run env cfg binFiles totalThreads schedule).workers[i]? = some WStatus.running →
            none ∈ (run env cfg binFiles totalThreads schedule).queue)
      ∧ ∃ schedule, runningCount (run env cfg binFiles totalThreads schedule) = 0 := by
  refine ⟨initState_queue binFiles totalThreads, ?_, ?_, ?_⟩
  · simp [initState]
  · intro schedule i hrun
    have hS := sentinel_run env cfg binFiles totalThreads schedule
    unfold SentinelInv at hS
    have hmem : WStatus.running ∈ (run env cfg binFiles totalThreads schedule).workers := by
      rw [← List.get?_eq_getElem?] at hrun
      exact List.get?_mem hrun
    have hpos : 0 < runningCount (run env cfg binFiles totalThreads schedule) := by
      unfold runningCount
      exact List.count_pos_iff.mpr hmem
    have hqpos : 0 < (run env cfg binFiles totalThreads schedule).queue.count
        (none : Option String) := lt_of_lt_of_le hpos hS
    exact List.count_pos_iff.mp hqpos
  · exact exists_terminating_aux env cfg (initState binFiles totalThreads).queue.length
      (initState binFiles totalThreads) (le_refl _) (sentinel_init binFiles totalThreads)

/-- Claim C3 witness: the seeded queue and worker count for one job and
two threads. -/
theorem spec_C3_witness :
    (initState ["b1"] 2).queue = [some "b1", none, none]
      ∧ (initState ["b1"] 2).workers.length = 2 := by
  have h := spec_C3 testEnv wCfg ["b1"] 2 (by decide)
  exact ⟨by rw [h.1]; rfl, h.2.1⟩

/-- Claim C4: once all workers have terminated, the completion queue holds
one notification per processed job (a permutation of the job identifiers)
and only then does the orchestrator append the single sentinel; a reporter
consuming that queue exits through the sentinel branch with nothing left
over, hence after having observed every real completion, and when the log
level is informational its final counter equals the number of jobs. -/
theorem spec_C4 (env : Env) (cfg : Cfg) (binFiles : List String) (W : Nat) (level : Nat)
    (hW : 1 ≤ W) (hEnv : NormalEnv env) (schedule : List Nat)
    (hT : runningCount (run env cfg binFiles W schedule) = 0) :
    (reportProgress level binFiles.length
        ((run env cfg binFiles W schedule).completions.map some ++ [none])).sawSentinel = true
      ∧ (reportProgress level binFiles.length
          ((run env cfg binFiles W schedule).completions.map some ++ [none])).leftover = []
      ∧ (run env cfg binFiles W schedule).completions.Perm (binFiles.map env.binIdOf)
      ∧ (level ≤ INFO →
          (reportProgress level binFiles.length
            ((run env cfg binFiles W schedule).completions.map some ++ [none])).numProcessedBins
              = binFiles.length) := by
  have hInv := Inv_run env cfg binFiles W hEnv schedule
  have hfin := Inv_final env binFiles W _ hW hInv hT
  obtain ⟨hproc, hcomp, hkeys, hqe⟩ := hfin
  have h := repLoop_noNone level binFiles.length
    ((run env cfg binFiles W schedule).completions) 0
  refine ⟨?_, ?_, ?_, ?_⟩
  · simpa [reportProgress] using h.1
  · simpa [reportProgress] using h.2.1
  · rw [hcomp]
  · intro hlev
    have h3 := h.2.2.1
    rw [if_pos hlev] at h3
    have hlcomp : (run env cfg binFiles W schedule).completions.length = binFiles.length := by
      rw [hcomp]; simp
    simp only [reportProgress]
    rw [h3, hlcomp]
    omega

/-- Claim C4 witness: a concrete terminated two-job run whose completion
queue, extended with the single sentinel, drives the reporter to consume
both completions and exit with count 2. -/
theorem spec_C4_witness :
    (reportProgress 20 2
        ((run testEnv wCfg ["b1", "b2"] 2 [0, 1, 0, 1]).completions.map some
          ++ [none])).sawSentinel = true
      ∧ (run testEnv wCfg ["b1", "b2"] 2 [0, 1, 0, 1]).completions.Perm
          (["b1", "b2"].map testEnv.binIdOf)
      ∧ (reportProgress 20 2
          ((run testEnv wCfg ["b1", "b2"] 2 [0, 1, 0, 1]).completions.map some
            ++ [none])).numProcessedBins = 2 := by
  have h := spec_C4 testEnv wCfg ["b1", "b2"] 2 20 (by decide) (fun _ => rfl) [0, 1, 0, 1] rfl
  exact ⟨h.1, h.2.2.1, h.2.2.2 (by decide)⟩

/-- Claim C5: in one pipeline pass on a job, the gene caller (Prodigal) is
invoked on the bin file exactly when its output is not already present in
the bin directory, and in either case the rest of the pipeline still runs:
the model metadata is recorded and the HMMER search is invoked. -/
theorem spec_C5 (env : Env) (cfg : Cfg) (binFile : String) :
    ((Event.prodigalRun binFile cfg.bNucORFs ∈ (processOneBin env cfg binFile).events)
        ↔ env.orfsCalled (cfg.outDir ++ "/bins/" ++ env.binIdOf binFile) = false)
      ∧ Event.mapInsert (env.binIdOf binFile)
            (env.models (env.createHmmModelFile (env.binIdOf binFile) cfg.markerFile))
          ∈ (processOneBin env cfg binFile).events
      ∧ Event.hmmerSearch (env.createHmmModelFile (env.binIdOf binFile) cfg.markerFile)
            (env.aaGeneFile (cfg.outDir ++ "/bins/" ++ env.binIdOf binFile))
            (cfg.outDir ++ "/bins/" ++ env.binIdOf binFile ++ "/" ++ cfg.tableOut)
            (cfg.outDir ++ "/bins/" ++ env.binIdOf binFile ++ "/" ++ cfg.hmmerOut)
            (hmmerFlagsStr cfg.threadsPerSearch cfg.bKeepAlignment) cfg.bKeepAlignment
          ∈ (processOneBin env cfg binFile).events := by
  by_cases ho : env.orfsCalled (cfg.outDir ++ "/bins/" ++ env.binIdOf binFile) <;>
    by_cases hr : env.removeOk (env.createHmmModelFile (env.binIdOf binFile) cfg.markerFile) <;>
      simp [processOneBin, ho, hr]

/-- Claim C5 witness: with gene-calling output absent the Prodigal
invocation happens on the source file. -/
theorem spec_C5_witness :
    Event.prodigalRun "b1" false ∈ (processOneBin testEnv wCfg "b1").events :=
  (spec_C5 testEnv wCfg "b1").1.mpr rfl

/-- Claim C6: every pipeline pass invokes the HMMER search with the
parameter string that encodes the configured per-job thread budget,
disabled text wrapping, E-value and domain-E-value thresholds of 0.1, and
the `--noali` flag exactly when the keep-alignment option is false; the
source string equals the spec token string (joined by single spaces) up to
one trailing space in the keep-alignment case, where `--noali` is absent. -/
theorem spec_C6 (env : Env) (cfg : Cfg) (binFile : String) :
    (∃ hf aa tp hp, Event.hmmerSearch hf aa tp hp
        (specProfileSearchParams cfg.threadsPerSearch cfg.bKeepAlignment
          ++ (if cfg.bKeepAlignment then " " else ""))
        cfg.bKeepAlignment ∈ (processOneBin env cfg binFile).events)
      ∧ hmmerFlagsStr cfg.threadsPerSearch cfg.bKeepAlignment
          = specProfileSearchParams cfg.threadsPerSearch cfg.bKeepAlignment
            ++ (if cfg.bKeepAlignment then " " else "")
      ∧ ((if cfg.bKeepAlignment then "" else "--noali") = "--noali"
          ↔ cfg.bKeepAlignment = false) := by
  refine ⟨?_, hmmerFlagsStr_eq_spec cfg.threadsPerSearch cfg.bKeepAlignment, ?_⟩
  · refine ⟨env.createHmmModelFile (env.binIdOf binFile) cfg.markerFile,
      env.aaGeneFile (cfg.outDir ++ "/bins/" ++ env.binIdOf binFile),
      cfg.outDir ++ "/bins/" ++ env.binIdOf binFile ++ "/" ++ cfg.tableOut,
      cfg.outDir ++ "/bins/" ++ env.binIdOf binFile ++ "/" ++ cfg.hmmerOut, ?_⟩
    rw [← hmmerFlagsStr_eq_spec]
    exact processOneBin_search_mem env cfg binFile
  · cases hb : cfg.bKeepAlignment <;> simp

/-- Claim C7 counterexample: called with zero jobs, `find` does not
refuse with a validated setup error; the thread-budget expression at line
45 is attempted and raises, which the embedding records as the
`zeroDivision` error, so a division by zero does occur. -/
theorem spec_C7_counterexample :
    find testEnv 4 [] "out" "tbl" "hm" "mk" false false []
      = Except.error FindErr.zeroDivision := rfl

/-- Claim C7 amended: `find` performs no job-count validation; for every
thread count and configuration, calling it with an empty job list makes
the thread-budget computation of line 45 raise a division-by-zero error
before any worker is started, and that uncaught error is the only way the
run refuses to proceed. -/
theorem spec_C7_amended (env : Env) (totalThreads : Nat)
    (outDir tableOut hmmerOut markerFile : String) (bKeepAlignment bNucORFs : Bool)
    (schedule : List Nat) :
    find env totalThreads [] outDir tableOut hmmerOut markerFile bKeepAlignment bNucORFs
      schedule = Except.error FindErr.zeroDivision := rfl

/-- Claim C8 counterexample: when deleting the model subset file fails,
the pipeline pass ends with an uncaught error, the completion push does
not happen and nothing is logged; the job id is not put on the completion
queue, contradicting the claim that the failure is non-fatal. -/
theorem spec_C8_counterexample :
    (processOneBin failEnv wCfg "b1").err = some PErr.removeFailed
      ∧ Event.putCompletion "b1" ∉ (processOneBin failEnv wCfg "b1").events
      ∧ (processOneBin failEnv wCfg "b1").completions = [] := by
  refine ⟨rfl, by decide, rfl⟩

/-- Claim C8 amended: when deletion of the transient model subset file
fails at the end of the pipeline, the exception is uncaught: the pass
reports the error, the job identifier is not pushed onto the completion
queue, and the worker stops; the map entry written for the job earlier in
the pass remains recorded. -/
theorem spec_C8_amended (env : Env) (cfg : Cfg) (binFile : String)
    (hr : env.removeOk (env.createHmmModelFile (env.binIdOf binFile) cfg.markerFile) = false) :
    (processOneBin env cfg binFile).err = some PErr.removeFailed
      ∧ (processOneBin env cfg binFile).completions = []
      ∧ (env.binIdOf binFile,
          env.models (env.createHmmModelFile (env.binIdOf binFile) cfg.markerFile))
          ∈ (processOneBin env cfg binFile).inserts := by
  simp [processOneBin, hr]

/-- Claim C8 witness: the amended behavior at a concrete failing
environment. -/
theorem spec_C8_witness :
    (processOneBin failEnv wCfg "b1").err = some PErr.removeFailed
      ∧ (processOneBin failEnv wCfg "b1").completions = []
      ∧ ("b1", 0) ∈ (processOneBin failEnv wCfg "b1").inserts := by
  have h := spec_C8_amended failEnv wCfg "b1" rfl
  exact ⟨h.1, h.2.1, h.2.2⟩

/-- Claim C9 counterexample: at informational verbosity, one job produces
two status-line writes, not one: the initial zero-progress line written
before the loop plus the per-completion line.  The status lines are the
writes other than the final newline. -/
theorem spec_C9_counterexample :
    (reportProgress 20 1 [some "b1", none]).outputs
        = [statusStr 0 1 ++ "\r", statusStr 1 1 ++ "\r", "\n"]
      ∧ List.countP (fun o => o != "\n")
          (reportProgress 20 1 [some "b1", none]).outputs = 2
      ∧ ¬ List.countP (fun o => o != "\n")
          (reportProgress 20 1 [some "b1", none]).outputs = 1 := by
  refine ⟨rfl, rfl, by decide⟩

/-- Claim C9 amended: at verbosity at most informational the reporter
writes N + 1 status updates for N jobs, namely the initial line at zero
completions and then exactly one per completion event, each of the form
`    Finished processing <done> of <total> (<pct>%) bins.` followed by a
carriage return, ending at done = N, and a final newline on the sentinel;
the rendered percentage at done = N is 100.00; and below informational
verbosity all output is suppressed. -/
theorem spec_C9_amended (level : Nat) (ids : List String) :
    ((reportProgress level ids.length (ids.map some ++ [none])).outputs
        = if level ≤ INFO then
            (statusStr 0 ids.length ++ "\r")
              :: (((List.range ids.length).map
                    (fun k => statusStr (k + 1) ids.length ++ "\r")) ++ ["\n"])
          else [])
      ∧ (1 ≤ ids.length → fmtPct ids.length ids.length = "100.00") := by
  constructor
  · have h := (repLoop_noNone level ids.length ids 0).2.2.2
    by_cases hl : level ≤ INFO
    · rw [if_pos hl]
      rw [if_pos hl] at h
      simp only [reportProgress, if_pos hl]
      rw [h]
      simp
    · rw [if_neg hl]
      rw [if_neg hl] at h
      simp only [reportProgress, if_neg hl]
      rw [h]
      simp
  · intro hlen
    exact fmtPct_total ids.length hlen

/-- Claim C9 witness: the amended output shape at informational verbosity
for two jobs, and full suppression above informational verbosity. -/
theorem spec_C9_witness :
    (reportProgress 20 2 (["a", "b"].map some ++ [none])).outputs
        = [statusStr 0 2 ++ "\r", statusStr 1 2 ++ "\r", statusStr 2 2 ++ "\r", "\n"]
      ∧ (reportProgress 30 2 (["a", "b"].map some ++ [none])).outputs = []
      ∧ fmtPct 2 2 = "100.00" := by
  have h20 := spec_C9_amended 20 ["a", "b"]
  have h30 := spec_C9_amended 30 ["a", "b"]
  refine ⟨?_, ?_, h20.2 (by decide)⟩
  · have h1 := h20.1
    rw [if_pos (by decide)] at h1
    simpa [List.range_succ] using h1
  · have h1 := h30.1
    rw [if_neg (by decide)] at h1
    simpa using h1

/-- Claim C10: the worker loop distinguishes the sentinel from a job only
by comparing the dequeued value with `None`; on a queue whose job section
contains no `None` (as produced by the seeding, which wraps every job) the
worker processes exactly the jobs and stops at the first sentinel, leaving
the remaining sentinels; whereas a `None` sitting among the jobs makes the
worker stop early and leaves the later jobs unprocessed, as the concrete
queue `[some a, none, some b]` shows. -/
theorem spec_C10 (jobs : List String) (W : Nat) :
    workerConsume (jobs.map some ++ List.replicate (W + 1) none)
        = (jobs, List.replicate W none)
      ∧ workerConsume [some "a", none, some "b"] = (["a"], [some "b"]) := by
  constructor
  · induction jobs with
    | nil => simp [workerConsume, List.replicate_succ]
    | cons j js ih => simp [workerConsume, ih]
  · rfl

end CheckM
